import Mathlib

/-!
Verification of the `MultiSelect` dropdown component
(`src/components/UI/select.tsx` of kalibani/multi-select-implementation).

The component is a React function component; its logic lives in a handful of
event handlers over four pieces of state (`isOpen`, `searchTerm`,
`selectedOptions`, `highlightedIndex`).  We embed each handler as a pure Lean
function on that state, and wire them into a small event-step machine that
mirrors how the DOM delivers events to the rendered tree (in particular, a
click on a selected chip bubbles from the chip's `span` to the trigger `div`,
because the chip's `onClick` never calls `stopPropagation`).

JavaScript numbers used as indices are modelled as `Int` (the source computes
`options.length - 1`, which is `-1` for an empty list, and stores it in
`highlightedIndex`); strings are Lean `String`s, with JavaScript's
`toLowerCase`/`indexOf`/`slice` modelled character-wise.
-/

/-- Modelled from the spec: the `Option` type is imported from
`src/types/Option.ts`, which is not under `src/`.  The spec defines it as an
immutable pair of a `value` (an opaque identifier, unique within one options
list, used as the equality key for selection; numeric in the spec's own
scenarios, e.g. `{value:1,label:"Apple"}`) and a `label` (the display string).
We call it `Opt` because `Option` is taken in Lean. -/
structure Opt where
  value : Int
  label : String
deriving DecidableEq, Repr

/-- The argument passed to the caller-supplied `onChange` callback:
either a single `Option` or an array of `Option`s
(the source's `onChange: (selected: Option | Option[]) => void`). -/
inductive ChangeArg where
  | single (o : Opt)
  | multiple (l : List Opt)
deriving DecidableEq, Repr

/-- The observable result of one selection-mutating handler call:
the new `selectedOptions` state, the list of `onChange` invocations made
(in order), and whether the handler issued `setIsOpen(false)`. -/
structure ClickResult where
  selected : List Opt
  changes : List ChangeArg
  closePanel : Bool
deriving DecidableEq, Repr

/-- `handleOptionClick` from the source: in multi mode, toggles `option` in
`selectedOptions` by `value` equality (filter out if some selected element has
the same `value`, else append) and calls `onChange` with the new array; in
single mode, replaces the selection with `[option]`, calls `onChange` with the
single option, and closes the dropdown. -/
def handleOptionClick (isMultiple : Bool) (selectedOptions : List Opt)
    (option : Opt) : ClickResult :=
  if isMultiple then
    let isSelected := selectedOptions.any fun selected => selected.value == option.value
    let newSelectedOptions :=
      if isSelected then
        selectedOptions.filter fun selected => !(selected.value == option.value)
      else
        selectedOptions ++ [option]
    ⟨newSelectedOptions, [ChangeArg.multiple newSelectedOptions], false⟩
  else
    ⟨[option], [ChangeArg.single option], true⟩

/-- `handleRemoveOption` from the source: filters out every selected element
whose `value` equals `option.value` and calls `onChange` with the new array.
Note the source passes the array to `onChange` regardless of `isMultiple`,
and never touches `isOpen`. -/
def handleRemoveOption (selectedOptions : List Opt) (option : Opt) : ClickResult :=
  let newSelectedOptions :=
    selectedOptions.filter fun selected => !(selected.value == option.value)
  ⟨newSelectedOptions, [ChangeArg.multiple newSelectedOptions], false⟩

/-- `handleToggle` from the source: `setIsOpen(!isOpen)`. -/
def handleToggle (isOpen : Bool) : Bool := !isOpen

/-- `handleClickOutside` from the source.  `triggerRef`/`menuRef` say whether
`dropdownRef.current` and `dropdownMenuRef.current` are non-null (the menu ref
is attached only while the dropdown menu is rendered, i.e. while open);
`inTrigger`/`inPanel` say whether the mousedown target lies in the respective
DOM subtree.  The handler closes the dropdown iff both refs are present and
the target is inside neither subtree. -/
def handleClickOutside (triggerRef menuRef inTrigger inPanel : Bool)
    (isOpen : Bool) : Bool :=
  if triggerRef && menuRef && !inTrigger && !inPanel then false else isOpen

/-- The `ArrowDown` branch of `handleKeyDown`:
`prev === null || prev === options.length - 1 ? 0 : prev + 1`
(for an options list of length `n`). -/
def arrowDownNext (n : Int) : Option Int → Option Int
  | none => some 0
  | some prev => some (if prev = n - 1 then 0 else prev + 1)

/-- The `ArrowUp` branch of `handleKeyDown`:
`prev === null || prev === 0 ? options.length - 1 : prev - 1`
(for an options list of length `n`). -/
def arrowUpNext (n : Int) : Option Int → Option Int
  | none => some (n - 1)
  | some prev => some (if prev = 0 then n - 1 else prev - 1)

/-- Total model of the JavaScript read `options[i]` for an `Int` index:
`none` when `i` is negative or past the end (JavaScript yields `undefined`). -/
def jsIndex (options : List Opt) (i : Int) : Option Opt :=
  if i < 0 then none else options[i.toNat]?

/-- The outcome of the `Enter` branch of `handleKeyDown`. -/
inductive EnterResult where
  | noop
  | clicked (r : ClickResult)
  | indexError
deriving DecidableEq, Repr

/-- The `Enter` branch of `handleKeyDown`: if `highlightedIndex !== null`,
call `handleOptionClick(options[highlightedIndex])`.  The guard does not check
that the index is in bounds; in this total embedding an out-of-bounds read
surfaces as `indexError` (JavaScript would pass `undefined` on). -/
def handleEnter (isMultiple : Bool) (options selectedOptions : List Opt)
    (highlightedIndex : Option Int) : EnterResult :=
  match highlightedIndex with
  | none => .noop
  | some i =>
    match jsIndex options i with
    | some o => .clicked (handleOptionClick isMultiple selectedOptions o)
    | none => .indexError

/-- The component's mutable state: `isOpen`, `searchTerm`, `selectedOptions`,
`highlightedIndex` (a JavaScript number or `null`). -/
structure SelState where
  isOpen : Bool
  searchTerm : String
  selectedOptions : List Opt
  highlightedIndex : Option Int
deriving DecidableEq, Repr

/-- The initial state on mount: closed, empty search, no selection,
no highlight. -/
def initState : SelState := ⟨false, "", [], none⟩

/-- The user/DOM events the rendered tree can deliver.  `outsideMouseDown`
carries whether the mousedown target lies inside the trigger subtree and
inside the dropdown-menu subtree. -/
inductive Event where
  | triggerClick
  | optionClick (o : Opt)
  | chipClick (o : Opt)
  | arrowDownKey
  | arrowUpKey
  | enterKey
  | searchInput (t : String)
  | outsideMouseDown (inTrigger inPanel : Bool)

/-- The result of delivering one event: the new state, the `onChange`
invocations made, and whether the Enter handler hit the out-of-bounds read. -/
structure StepOut where
  state : SelState
  changes : List ChangeArg
  indexError : Bool
deriving DecidableEq, Repr

/-- Apply a `ClickResult` to the component state (set the new selection,
and close the panel when the handler asked for it). -/
def applyClick (s : SelState) (r : ClickResult) : StepOut :=
  ⟨{ s with
      selectedOptions := r.selected
      isOpen := if r.closePanel then false else s.isOpen },
    r.changes, false⟩

/-- One step of the component, as the rendered tree wires the handlers
(with the default `searchable = true`, so the search input and its
`onKeyDown` exist whenever the panel is open):

* `triggerClick`: the trigger `div`'s `onClick` is `handleToggle`.
* `optionClick o`: options are rendered (and hence clickable) only while the
  panel is open, and only options of the `options` list are rendered; the
  option's `onClick` is `handleOptionClick o`.
* `chipClick o`: chips are rendered on the trigger for each selected option;
  the chip's `onClick` is `handleRemoveOption o`, and because the chip never
  calls `stopPropagation`, the click then bubbles to the trigger `div` and
  also runs `handleToggle`.
* arrow/Enter keys: handled by the search input's `onKeyDown`
  (`handleKeyDown`), which exists only while the panel is open.
* `searchInput`: the search input's `onChange` is `handleSearchChange`.
* `outsideMouseDown`: the document-level mousedown listener runs
  `handleClickOutside`; the menu ref is non-null exactly while the panel
  is rendered (open). -/
def step (isMultiple : Bool) (options : List Opt) (s : SelState) :
    Event → StepOut
  | .triggerClick => ⟨{ s with isOpen := handleToggle s.isOpen }, [], false⟩
  | .optionClick o =>
    if s.isOpen ∧ o ∈ options then
      applyClick s (handleOptionClick isMultiple s.selectedOptions o)
    else
      ⟨s, [], false⟩
  | .chipClick o =>
    if o ∈ s.selectedOptions then
      let r := handleRemoveOption s.selectedOptions o
      ⟨{ s with
          selectedOptions := r.selected
          isOpen := handleToggle s.isOpen },
        r.changes, false⟩
    else
      ⟨s, [], false⟩
  | .arrowDownKey =>
    if s.isOpen then
      ⟨{ s with highlightedIndex :=
          arrowDownNext options.length s.highlightedIndex }, [], false⟩
    else
      ⟨s, [], false⟩
  | .arrowUpKey =>
    if s.isOpen then
      ⟨{ s with highlightedIndex :=
          arrowUpNext options.length s.highlightedIndex }, [], false⟩
    else
      ⟨s, [], false⟩
  | .enterKey =>
    if s.isOpen then
      match handleEnter isMultiple options s.selectedOptions s.highlightedIndex with
      | .noop => ⟨s, [], false⟩
      | .clicked r => applyClick s r
      | .indexError => ⟨s, [], true⟩
    else
      ⟨s, [], false⟩
  | .searchInput t =>
    if s.isOpen then ⟨{ s with searchTerm := t }, [], false⟩ else ⟨s, [], false⟩
  | .outsideMouseDown inTrigger inPanel =>
    ⟨{ s with isOpen :=
        handleClickOutside true s.isOpen inTrigger inPanel s.isOpen }, [], false⟩

/-- Run a list of events from a state, recording whether any step hit the
Enter handler's out-of-bounds read. -/
def run (isMultiple : Bool) (options : List Opt) (s : SelState) :
    List Event → SelState × Bool
  | [] => (s, false)
  | e :: rest =>
    let out := step isMultiple options s e
    let (s', err) := run isMultiple options out.state rest
    (s', out.indexError || err)

/-- The states reachable from the mount-time initial state. -/
inductive Reachable (isMultiple : Bool) (options : List Opt) : SelState → Prop
  | init : Reachable isMultiple options initState
  | step (s : SelState) (e : Event) :
      Reachable isMultiple options s →
      Reachable isMultiple options (step isMultiple options s e).state

/-- The `value`s of a list of options, in order. -/
def valuesOf (l : List Opt) : List Int := l.map Opt.value

/-- The spec's precondition on a well-formed options list:
no two options share a `value`. -/
def uniqueValues (l : List Opt) : Prop := (valuesOf l).Nodup

/-! ## The renderer (`renderDefaultOption` and the `options.map` in
`dropdownMenu`) -/

/-- JavaScript's `String.prototype.toLowerCase`, modelled character-wise
(length-preserving, as it is on the ASCII labels the component targets). -/
def lowerStr (s : String) : String := ⟨s.data.map Char.toLower⟩

/-- The index of the first occurrence of `pat` in `l`
(`none` when JavaScript's `indexOf` would return `-1`;
`some 0` on an empty pattern, as in JavaScript). -/
def firstOcc (pat : List Char) : List Char → Option Nat
  | [] => if pat <+: ([] : List Char) then some 0 else none
  | a :: t =>
    if pat <+: (a :: t) then some 0
    else (firstOcc pat t).map Nat.succ

/-- JavaScript's `s.indexOf(pat)`, with `-1` modelled as `none`. -/
def strIndexOf (s pat : String) : Option Nat := firstOcc pat.data s.data

/-- What the default renderer draws for an option's label: either the plain
label, or the `(prefix, match, suffix)` decomposition around the first
case-insensitive occurrence of the search term (the middle part is wrapped in
the red `span`). -/
inductive RenderedLabel where
  | plain (label : String)
  | parts (before mid after : String)
deriving DecidableEq, Repr

/-- The label-splitting logic of `renderDefaultOption`:
`matchStartIndex = label.toLowerCase().indexOf(searchTerm.toLowerCase())`,
`matchEndIndex = matchStartIndex + searchTerm.length`, and if
`matchStartIndex > -1` the label is rendered as
`slice(0, matchStartIndex)`, `slice(matchStartIndex, matchEndIndex)`,
`slice(matchEndIndex)`; otherwise the label is rendered whole. -/
def renderLabel (searchTerm label : String) : RenderedLabel :=
  match strIndexOf (lowerStr label) (lowerStr searchTerm) with
  | none => .plain label
  | some matchStartIndex =>
    .parts ⟨label.data.take matchStartIndex⟩
      ⟨(label.data.drop matchStartIndex).take searchTerm.length⟩
      ⟨label.data.drop (matchStartIndex + searchTerm.length)⟩

/-- The list of option labels the open panel draws: `options.map(...)` over
the full, unfiltered `options` array (the search term highlights but never
excludes). -/
def dropdownMenuLabels (searchTerm : String) (options : List Opt) :
    List RenderedLabel :=
  options.map fun option => renderLabel searchTerm option.label

/-- Whether `label` contains `searchTerm` case-insensitively — the executable
form `renderDefaultOption` branches on. -/
def containsCI (searchTerm label : String) : Bool :=
  (strIndexOf (lowerStr label) (lowerStr searchTerm)).isSome

/-- The keyboard-highlight overlay condition of `renderDefaultOption`'s
`classNames` call: `"bg-yellow-100"` is applied when
`highlightedIndex !== null && highlightedIndex === option.value`
(the comparison the source suppresses a type error on with `@ts-ignore`). -/
def highlightOverlayApplied (highlightedIndex : Option Int) (option : Opt) :
    Bool :=
  match highlightedIndex with
  | none => false
  | some h => h == option.value

/-- The overlay flag of each rendered option, in render order. -/
def overlayFlags (highlightedIndex : Option Int) (options : List Opt) :
    List Bool :=
  options.map (highlightOverlayApplied highlightedIndex)

/-- Whether an `onChange` argument is the sequence form (`Option[]`)
rather than the single-`Option` form. -/
def notifIsSeq : ChangeArg → Bool
  | .single _ => false
  | .multiple _ => true

/-- Claim C1 as stated: for every selection mutation (toggle via click/Enter,
and chip removal), `onChange` is invoked exactly once, and the shape of its
argument depends only on the mode (sequence iff `isMultiple`). -/
def claimC1 : Prop :=
  ∀ (isMultiple : Bool) (sel : List Opt) (o : Opt),
    ((handleOptionClick isMultiple sel o).changes.length = 1 ∧
      ∀ c ∈ (handleOptionClick isMultiple sel o).changes,
        notifIsSeq c = isMultiple) ∧
    ((handleRemoveOption sel o).changes.length = 1 ∧
      ∀ c ∈ (handleRemoveOption sel o).changes, notifIsSeq c = isMultiple)

/-- Claim C2 as stated: in multi-select mode, for every options list with
unique values, every reachable state, and every option of the list, toggling
that option twice returns the selection to its original contents and order. -/
def claimC2 : Prop :=
  ∀ options : List Opt, uniqueValues options →
    ∀ s : SelState, Reachable true options s →
      ∀ o ∈ options,
        (handleOptionClick true
            (handleOptionClick true s.selectedOptions o).selected o).selected =
          s.selectedOptions

/-! ## Lemmas about `firstOcc` (the `indexOf` model) -/

theorem firstOcc_isSome_iff (pat : List Char) (l : List Char) :
    (firstOcc pat l).isSome = true ↔ pat <:+: l := by
  induction l with
  | nil =>
    by_cases hp : pat <+: ([] : List Char)
    · simp only [firstOcc, if_pos hp]
      simpa using hp.isInfix
    · have hni : ¬pat <:+: ([] : List Char) := by
        rw [List.infix_nil]
        rintro rfl
        exact hp (List.nil_prefix)
      simp only [firstOcc, if_neg hp]
      simpa using hni
  | cons a t ih =>
    by_cases hp : pat <+: (a :: t)
    · simp only [firstOcc, if_pos hp]
      simpa using hp.isInfix
    · simp only [firstOcc, if_neg hp, Option.isSome_map']
      rw [ih, List.infix_cons_iff]
      constructor
      · exact Or.inr
      · rintro (h | h)
        · exact absurd h hp
        · exact h

theorem firstOcc_drop_of_some (pat : List Char) :
    ∀ (l : List Char) (s : Nat), firstOcc pat l = some s → pat <+: l.drop s := by
  intro l
  induction l with
  | nil =>
    intro s h
    by_cases hp : pat <+: ([] : List Char)
    · rw [firstOcc, if_pos hp] at h
      obtain rfl : (0 : Nat) = s := Option.some.inj h
      simpa using hp
    · rw [firstOcc, if_neg hp] at h
      cases h
  | cons a t ih =>
    intro s h
    by_cases hp : pat <+: (a :: t)
    · rw [firstOcc, if_pos hp] at h
      obtain rfl : (0 : Nat) = s := Option.some.inj h
      simpa using hp
    · rw [firstOcc, if_neg hp] at h
      obtain ⟨s', hs', rfl⟩ := Option.map_eq_some'.mp h
      simpa [List.drop_succ_cons] using ih s' hs'

theorem firstOcc_min_of_some (pat : List Char) :
    ∀ (l : List Char) (s : Nat), firstOcc pat l = some s →
      ∀ j, j < s → ¬pat <+: l.drop j := by
  intro l
  induction l with
  | nil =>
    intro s h j hj
    by_cases hp : pat <+: ([] : List Char)
    · rw [firstOcc, if_pos hp] at h
      obtain rfl : (0 : Nat) = s := Option.some.inj h
      omega
    · rw [firstOcc, if_neg hp] at h
      cases h
  | cons a t ih =>
    intro s h j hj
    by_cases hp : pat <+: (a :: t)
    · rw [firstOcc, if_pos hp] at h
      obtain rfl : (0 : Nat) = s := Option.some.inj h
      omega
    · rw [firstOcc, if_neg hp] at h
      obtain ⟨s', hs', rfl⟩ := Option.map_eq_some'.mp h
      match j, hj with
      | 0, _ => simpa using hp
      | j' + 1, hj =>
        simpa [List.drop_succ_cons] using ih s' hs' j' (by omega)

theorem firstOcc_add_length_le (pat : List Char) :
    ∀ (l : List Char) (s : Nat), firstOcc pat l = some s →
      s + pat.length ≤ l.length := by
  intro l
  induction l with
  | nil =>
    intro s h
    by_cases hp : pat <+: ([] : List Char)
    · rw [firstOcc, if_pos hp] at h
      obtain rfl : (0 : Nat) = s := Option.some.inj h
      simpa using hp.length_le
    · rw [firstOcc, if_neg hp] at h
      cases h
  | cons a t ih =>
    intro s h
    by_cases hp : pat <+: (a :: t)
    · rw [firstOcc, if_pos hp] at h
      obtain rfl : (0 : Nat) = s := Option.some.inj h
      have := hp.length_le
      simp only [List.length_cons] at this ⊢
      omega
    · rw [firstOcc, if_neg hp] at h
      obtain ⟨s', hs', rfl⟩ := Option.map_eq_some'.mp h
      have := ih s' hs'
      simp only [List.length_cons]
      omega

theorem lowerStr_data_length (s : String) :
    (lowerStr s).data.length = s.data.length := by
  simp [lowerStr]

/-- Claim C8: for every search term and every options list, the open panel
draws every option (non-matching options are never excluded), and for each
label containing the search term case-insensitively the built-in renderer
splits it at the first case-insensitive occurrence into (prefix, match,
suffix) where the match has the search term's length and the three parts
concatenate to the original label; labels without a match render unsplit. -/
theorem C8_render_highlight (searchTerm : String) (options : List Opt) :
    (dropdownMenuLabels searchTerm options).length = options.length ∧
    (dropdownMenuLabels searchTerm options =
      options.map fun option => renderLabel searchTerm option.label) ∧
    ∀ label : String,
      (containsCI searchTerm label = true ↔
        (lowerStr searchTerm).data <:+: (lowerStr label).data) ∧
      (containsCI searchTerm label = false →
        renderLabel searchTerm label = .plain label) ∧
      (containsCI searchTerm label = true →
        ∃ pre mid suf, renderLabel searchTerm label = .parts pre mid suf ∧
          mid.length = searchTerm.length ∧
          pre ++ mid ++ suf = label ∧
          (lowerStr searchTerm).data <+:
            ((lowerStr label).data.drop pre.length) ∧
          ∀ j, j < pre.length →
            ¬(lowerStr searchTerm).data <+: ((lowerStr label).data.drop j)) := by
  refine ⟨by simp [dropdownMenuLabels], rfl, ?_⟩
  intro label
  refine ⟨firstOcc_isSome_iff _ _, ?_, ?_⟩
  · intro hnone
    have h0 : strIndexOf (lowerStr label) (lowerStr searchTerm) = none := by
      have : ¬(strIndexOf (lowerStr label) (lowerStr searchTerm)).isSome = true := by
        simpa [containsCI] using hnone
      exact Option.not_isSome_iff_eq_none.mp this
    simp [renderLabel, h0]
  · intro hsome
    obtain ⟨s, hs⟩ :
        ∃ s, strIndexOf (lowerStr label) (lowerStr searchTerm) = some s :=
      Option.isSome_iff_exists.mp (by simpa [containsCI] using hsome)
    have hfo : firstOcc (lowerStr searchTerm).data (lowerStr label).data = some s := hs
    have hsk : s + searchTerm.length ≤ label.data.length := by
      have h1 := firstOcc_add_length_le _ _ _ hfo
      have e1 : (lowerStr searchTerm).data.length = searchTerm.data.length :=
        lowerStr_data_length searchTerm
      have e2 : (lowerStr label).data.length = label.data.length :=
        lowerStr_data_length label
      have e3 : searchTerm.length = searchTerm.data.length := rfl
      omega
    have hpre_len : (⟨label.data.take s⟩ : String).length = s := by
      show (label.data.take s).length = s
      rw [List.length_take]
      omega
    refine ⟨⟨label.data.take s⟩, ⟨(label.data.drop s).take searchTerm.length⟩,
      ⟨label.data.drop (s + searchTerm.length)⟩, by simp [renderLabel, hs], ?_, ?_, ?_, ?_⟩
    · show ((label.data.drop s).take searchTerm.length).length = searchTerm.length
      rw [List.length_take, List.length_drop]
      omega
    · apply String.ext
      show (⟨label.data.take s⟩ ++ ⟨(label.data.drop s).take searchTerm.length⟩ ++
        ⟨label.data.drop (s + searchTerm.length)⟩ : String).data = label.data
      rw [String.data_append, String.data_append]
      show label.data.take s ++ ((label.data.drop s).take searchTerm.length) ++
        label.data.drop (s + searchTerm.length) = label.data
      calc
        label.data.take s ++ (label.data.drop s).take searchTerm.length ++
            label.data.drop (s + searchTerm.length)
          = label.data.take s ++ ((label.data.drop s).take searchTerm.length ++
              (label.data.drop s).drop searchTerm.length) := by
            rw [List.drop_drop, List.append_assoc]
        _ = label.data.take s ++ label.data.drop s := by
            rw [List.take_append_drop]
        _ = label.data := List.take_append_drop s label.data
    · rw [hpre_len]
      exact firstOcc_drop_of_some _ _ _ hfo
    · rw [hpre_len]
      exact firstOcc_min_of_some _ _ _ hfo

/-- Witness for C8 at the spec's own scenario: term `"an"`, options
`Apple`/`Banana`; both options are rendered, and `Banana` is split as
`("B", "an", "ana")`. -/
theorem C8_render_highlight_witness :
    (dropdownMenuLabels "an" [⟨1, "Apple"⟩, ⟨2, "Banana"⟩]).length =
      ([⟨1, "Apple"⟩, ⟨2, "Banana"⟩] : List Opt).length ∧
    (∃ pre mid suf, renderLabel "an" "Banana" = .parts pre mid suf ∧
      mid.length = ("an" : String).length ∧
      pre ++ mid ++ suf = "Banana" ∧
      (lowerStr "an").data <+: ((lowerStr "Banana").data.drop pre.length) ∧
      ∀ j, j < pre.length →
        ¬(lowerStr "an").data <+: ((lowerStr "Banana").data.drop j)) := by
  have h := C8_render_highlight "an" [⟨1, "Apple"⟩, ⟨2, "Banana"⟩]
  exact ⟨h.1, (h.2.2 "Banana").2.2 (by decide)⟩

/-- Claim C3: the spec requires that clicking a selected chip performs only
the remove mutation and leaves the open flag unchanged ("event propagation
must be stopped at the chip").  The code violates this: the chip's `span` has
`onClick={() => handleRemoveOption(opt)}` with no `stopPropagation`, so the
click bubbles to the enclosing trigger `div` whose `onClick` is
`handleToggle`.  Evaluated at a closed panel with chip `{value:1,label:"A"}`
selected, clicking the chip removes it AND opens the panel. -/
theorem C3_chip_click_toggles_open_bug :
    (step true [⟨1, "A"⟩] ⟨false, "", [⟨1, "A"⟩], none⟩
        (.chipClick ⟨1, "A"⟩)).state = ⟨true, "", [], none⟩ ∧
    (step true [⟨1, "A"⟩] ⟨true, "", [⟨1, "A"⟩], none⟩
        (.chipClick ⟨1, "A"⟩)).state = ⟨false, "", [], none⟩ := by
  decide

/-- Claim C4: the spec says the built-in renderer applies the
keyboard-highlight overlay exactly to the option at position
`highlightedIndex` in the full options array.  The code instead evaluates
`highlightedIndex !== null && highlightedIndex === option.value` (suppressing
the type error with `@ts-ignore`), i.e. it compares the index against the
option's `value`.  Evaluated at options `[{value:5,"A"},{value:0,"B"}]` with
`highlightedIndex = 0`: the overlay is applied to position 1 (whose value is
0) and not to position 0. -/
theorem C4_highlight_overlay_bug :
    overlayFlags (some 0) [⟨5, "A"⟩, ⟨0, "B"⟩] = [false, true] := by
  decide

/-- Claim C5: while the panel is open, for a non-empty options list of length
`n`, ArrowDown maps `null ↦ 0`, `n-1 ↦ 0`, and any other valid index
`i ↦ i+1`; ArrowUp maps `null ↦ n-1`, `0 ↦ n-1`, and any other valid index
`i ↦ i-1` — wrapping circularly at both ends. -/
theorem C5_arrow_key_wrapping (n : Nat) (_hn : 0 < n) :
    arrowDownNext n none = some 0 ∧
    arrowDownNext n (some ((n : Int) - 1)) = some 0 ∧
    (∀ i : Nat, (i : Int) < (n : Int) - 1 →
      arrowDownNext n (some i) = some ((i : Int) + 1)) ∧
    arrowUpNext n none = some ((n : Int) - 1) ∧
    arrowUpNext n (some 0) = some ((n : Int) - 1) ∧
    (∀ i : Nat, 0 < i → i < n →
      arrowUpNext n (some i) = some ((i : Int) - 1)) := by
  refine ⟨rfl, by simp [arrowDownNext], ?_, rfl, by simp [arrowUpNext], ?_⟩
  · intro i hi
    have : ((i : Int)) ≠ (n : Int) - 1 := by omega
    simp [arrowDownNext, this]
  · intro i hi1 hi2
    have : ((i : Int)) ≠ 0 := by omega
    simp [arrowUpNext, this]

/-- Witness for C5 at `n = 3`. -/
theorem C5_arrow_key_wrapping_witness :
    arrowDownNext 3 none = some 0 ∧
    arrowDownNext 3 (some 2) = some 0 ∧
    arrowDownNext 3 (some 1) = some 2 ∧
    arrowUpNext 3 (some 0) = some 2 ∧
    arrowUpNext 3 (some 1) = some 0 := by
  obtain ⟨h1, h2, h3, h4, h5, h6⟩ := C5_arrow_key_wrapping 3 (by decide)
  refine ⟨h1, by simpa using h2, by simpa using h3 1 (by decide),
    by simpa using h5, by simpa using h6 1 (by decide) (by decide)⟩

/-- Claim C7: while the panel is open (so both the trigger ref and the menu
ref are attached), a mousedown whose target is outside both the trigger
subtree and the panel subtree closes the panel, and a mousedown inside either
subtree leaves the open flag unchanged. -/
theorem C7_outside_click (inTrigger inPanel : Bool) :
    (inTrigger = false → inPanel = false →
      handleClickOutside true true inTrigger inPanel true = false) ∧
    (inTrigger = true ∨ inPanel = true →
      handleClickOutside true true inTrigger inPanel true = true) := by
  cases inTrigger <;> cases inPanel <;>
    exact ⟨fun h1 h2 => by simp_all [handleClickOutside],
      fun h => by rcases h with h | h <;> simp_all [handleClickOutside]⟩

/-- Witness for C7: an outside mousedown closes; one inside the trigger
leaves the panel open. -/
theorem C7_outside_click_witness :
    handleClickOutside true true false false true = false ∧
    handleClickOutside true true true false true = true :=
  ⟨(C7_outside_click false false).1 rfl rfl,
    (C7_outside_click true false).2 (Or.inl rfl)⟩

/-- Claim C10: the Enter guard checks only that `highlightedIndex` is
non-null, which does not imply it is in bounds.  With an empty options list
and the panel open, ArrowDown sets the index to `0` and ArrowUp sets it to
`options.length - 1 = -1`; Enter then reads `options[highlightedIndex]` out
of bounds, so the total embedding's indexing yields `none` and the error
branch is reached. -/
theorem C10_enter_out_of_bounds :
    (run true [] initState [.triggerClick, .arrowDownKey, .enterKey]).2 = true ∧
    (run true [] initState [.triggerClick, .arrowUpKey, .enterKey]).2 = true ∧
    arrowDownNext (List.length ([] : List Opt)) none = some 0 ∧
    arrowUpNext (List.length ([] : List Opt)) none = some (-1) := by
  decide

/-- Claim C6: when `highlightedIndex` is non-null and a valid index into the
options list, delivering Enter produces exactly the same step outcome — the
same selection mutation, the same `onChange` notification, and the same
open-flag effect — as clicking the option at that index directly. -/
theorem C6_enter_equals_click (isMultiple : Bool) (options : List Opt)
    (s : SelState) (i : Int) (h0 : 0 ≤ i) (h1 : i.toNat < options.length)
    (hh : s.highlightedIndex = some i) (hopen : s.isOpen = true) :
    step isMultiple options s .enterKey =
      step isMultiple options s (.optionClick (options.get ⟨i.toNat, h1⟩)) := by
  have hjs : jsIndex options i = some (options.get ⟨i.toNat, h1⟩) := by
    unfold jsIndex
    rw [if_neg (by omega)]
    rw [List.getElem?_eq_getElem h1]
    rfl
  have hmem : options.get ⟨i.toNat, h1⟩ ∈ options := options.get_mem _ _
  simp [step, hopen, hh, handleEnter, hjs, hmem]

/-- Witness for C6: with options `[{value:1,label:"A"}]`, an open panel and
`highlightedIndex = 0`, Enter and a direct click on option `A` coincide. -/
theorem C6_enter_equals_click_witness :
    step true [⟨1, "A"⟩] ⟨true, "", [], some 0⟩ .enterKey =
      step true [⟨1, "A"⟩] ⟨true, "", [], some 0⟩ (.optionClick ⟨1, "A"⟩) :=
  C6_enter_equals_click true [⟨1, "A"⟩] ⟨true, "", [], some 0⟩ 0
    (by decide) (by decide) rfl rfl

/-- Claim C1 is false as stated: `handleRemoveOption` passes the full updated
array to `onChange` regardless of mode, so in single-select mode
(`isMultiple = false`) removing the chip `{value:1,label:"A"}` notifies with
the sequence `[]`, not with a single `Option`. -/
theorem C1_counterexample : ¬claimC1 := by
  intro h
  have hmem : ChangeArg.multiple [] ∈ (handleRemoveOption [⟨1, "A"⟩] ⟨1, "A"⟩).changes := by
    decide
  have h2 := (h false [⟨1, "A"⟩] ⟨1, "A"⟩).2.2 (ChangeArg.multiple []) hmem
  exact absurd h2 (by decide)

/-- Claim C1 (amended): for every selection mutation, `onChange` is invoked
synchronously exactly once; for the toggle mutation (click or Enter) the
argument shape depends on the mode — the full updated sequence when
`isMultiple` is true and the single updated `Option` otherwise — but the
remove mutation (chip dismissal) always notifies with the full updated
sequence, regardless of mode. -/
theorem C1_amended_onChange_shape (isMultiple : Bool) (sel : List Opt) (o : Opt) :
    ((handleOptionClick isMultiple sel o).changes.length = 1 ∧
      ∀ c ∈ (handleOptionClick isMultiple sel o).changes,
        notifIsSeq c = isMultiple) ∧
    (handleRemoveOption sel o).changes =
      [ChangeArg.multiple (handleRemoveOption sel o).selected] := by
  refine ⟨?_, rfl⟩
  cases isMultiple <;> simp [handleOptionClick, notifIsSeq]

/-! ## Lemmas about the Selection Model -/

theorem any_value_eq_true_iff (sel : List Opt) (v : Int) :
    (sel.any fun s => s.value == v) = true ↔ v ∈ valuesOf sel := by
  rw [List.any_eq_true]
  simp [valuesOf, List.mem_map, beq_iff_eq]

theorem any_value_eq_false_iff (sel : List Opt) (v : Int) :
    (sel.any fun s => s.value == v) = false ↔ v ∉ valuesOf sel := by
  rw [← any_value_eq_true_iff sel v]
  cases sel.any fun s => s.value == v <;> simp

theorem filter_value_eq_self (sel : List Opt) (v : Int)
    (h : v ∉ valuesOf sel) :
    (sel.filter fun s => !(s.value == v)) = sel := by
  apply List.filter_eq_self.mpr
  intro a ha
  rw [Bool.not_eq_true', beq_eq_false_iff_ne]
  intro hav
  exact h (List.mem_map.mpr ⟨a, ha, hav⟩)

theorem nodup_filter_values (sel : List Opt) (p : Opt → Bool)
    (h : (valuesOf sel).Nodup) : (valuesOf (sel.filter p)).Nodup :=
  h.sublist ((List.filter_sublist sel).map Opt.value)

theorem toggle_selected_eq (sel : List Opt) (o : Opt) :
    (handleOptionClick true sel o).selected =
      if sel.any fun s => s.value == o.value then
        sel.filter fun s => !(s.value == o.value)
      else sel ++ [o] := rfl

theorem toggle_selected_single (sel : List Opt) (o : Opt) :
    (handleOptionClick false sel o).selected = [o] := rfl

theorem toggle_selected_nodup (isMultiple : Bool) (sel : List Opt) (o : Opt)
    (h : (valuesOf sel).Nodup) :
    (valuesOf (handleOptionClick isMultiple sel o).selected).Nodup := by
  cases isMultiple with
  | false =>
    rw [toggle_selected_single]
    simp [valuesOf]
  | true =>
    rw [toggle_selected_eq]
    by_cases hany : (sel.any fun s => s.value == o.value) = true
    · rw [if_pos hany]
      exact nodup_filter_values sel _ h
    · rw [if_neg hany]
      have hnot : o.value ∉ valuesOf sel :=
        (any_value_eq_false_iff sel o.value).mp (Bool.not_eq_true _ ▸ hany)
      show ((sel ++ [o]).map Opt.value).Nodup
      rw [List.map_append, List.nodup_append]
      refine ⟨h, by simp, ?_⟩
      intro a ha
      simp only [List.map_cons, List.map_nil, List.mem_singleton]
      intro hae
      exact hnot (hae ▸ ha)

theorem toggle_selected_subset (isMultiple : Bool) (sel : List Opt) (o : Opt)
    (x : Opt) (hx : x ∈ (handleOptionClick isMultiple sel o).selected) :
    x ∈ sel ∨ x = o := by
  cases isMultiple with
  | false =>
    rw [toggle_selected_single] at hx
    exact Or.inr (List.mem_singleton.mp hx)
  | true =>
    rw [toggle_selected_eq] at hx
    by_cases hany : (sel.any fun s => s.value == o.value) = true
    · rw [if_pos hany] at hx
      exact Or.inl (List.mem_of_mem_filter hx)
    · rw [if_neg hany] at hx
      rcases List.mem_append.mp hx with h | h
      · exact Or.inl h
      · exact Or.inr (List.mem_singleton.mp h)

theorem handleEnter_clicked (isMultiple : Bool) (options sel : List Opt)
    (hi : Option Int) (r : ClickResult)
    (h : handleEnter isMultiple options sel hi = .clicked r) :
    ∃ i o, hi = some i ∧ jsIndex options i = some o ∧
      r = handleOptionClick isMultiple sel o := by
  cases hi with
  | none => simp [handleEnter] at h
  | some i =>
    cases hjs : jsIndex options i with
    | none => simp [handleEnter, hjs] at h
    | some o =>
      simp only [handleEnter, hjs] at h
      cases h
      exact ⟨i, o, rfl, hjs, rfl⟩

/-- Invariant of every reachable state: the selected values are pairwise
distinct, every selected option comes from the options list, and in
single-select mode the selection has length at most 1. -/
theorem reachable_selected_invariant (isMultiple : Bool) (options : List Opt)
    (s : SelState) (h : Reachable isMultiple options s) :
    (valuesOf s.selectedOptions).Nodup ∧
    (∀ x ∈ s.selectedOptions, x ∈ options) ∧
    (isMultiple = false → s.selectedOptions.length ≤ 1) := by
  induction h with
  | init =>
    refine ⟨by decide, ?_, fun _ => by decide⟩
    intro x hx
    simp [initState] at hx
  | step s e _ ih =>
    obtain ⟨ih1, ih2, ih3⟩ := ih
    cases e with
    | triggerClick => exact ⟨ih1, ih2, ih3⟩
    | optionClick o =>
      simp only [step]
      split
      case isTrue hcond =>
        simp only [applyClick]
        refine ⟨toggle_selected_nodup _ _ _ ih1, ?_, ?_⟩
        · intro x hx
          rcases toggle_selected_subset _ _ _ _ hx with hx' | rfl
          · exact ih2 x hx'
          · exact hcond.2
        · intro hm
          subst hm
          rw [toggle_selected_single]
          simp
      case isFalse _ => exact ⟨ih1, ih2, ih3⟩
    | chipClick o =>
      simp only [step]
      split
      case isTrue _ =>
        refine ⟨nodup_filter_values _ _ ih1, ?_, ?_⟩
        · intro x hx
          exact ih2 x (List.mem_of_mem_filter hx)
        · intro hm
          have hl := ih3 hm
          show (s.selectedOptions.filter fun selected =>
            !(selected.value == o.value)).length ≤ 1
          have hle := List.length_filter_le
            (fun selected => !(selected.value == o.value)) s.selectedOptions
          omega
      case isFalse _ => exact ⟨ih1, ih2, ih3⟩
    | arrowDownKey =>
      simp only [step]
      split <;> exact ⟨ih1, ih2, ih3⟩
    | arrowUpKey =>
      simp only [step]
      split <;> exact ⟨ih1, ih2, ih3⟩
    | enterKey =>
      simp only [step]
      split
      case isTrue _ =>
        cases hE : handleEnter isMultiple options s.selectedOptions s.highlightedIndex with
        | noop => simp only [hE]; exact ⟨ih1, ih2, ih3⟩
        | indexError => simp only [hE]; exact ⟨ih1, ih2, ih3⟩
        | clicked r =>
          obtain ⟨i, o, hhi, hjs, rfl⟩ := handleEnter_clicked _ _ _ _ _ hE
          have homem : o ∈ options := by
            unfold jsIndex at hjs
            split at hjs
            · cases hjs
            · exact List.getElem?_mem hjs
          simp only [hE, applyClick]
          refine ⟨toggle_selected_nodup _ _ _ ih1, ?_, ?_⟩
          · intro x hx
            rcases toggle_selected_subset _ _ _ _ hx with hx' | rfl
            · exact ih2 x hx'
            · exact homem
          · intro hm
            subst hm
            rw [toggle_selected_single]
            simp
      case isFalse _ => exact ⟨ih1, ih2, ih3⟩
    | searchInput t =>
      simp only [step]
      split <;> exact ⟨ih1, ih2, ih3⟩
    | outsideMouseDown inTrigger inPanel => exact ⟨ih1, ih2, ih3⟩

/-- Claim C9: starting from the empty initial selection, every selection
mutation a reachable state can undergo preserves the Selection State
invariant: no two selected elements share a `value` (given an options list
with unique values), and in single-select mode the selection length is at
most 1.  (The invariant in fact holds for every reachable state without the
uniqueness precondition; the precondition is the claim's.) -/
theorem C9_selection_invariant (isMultiple : Bool) (options : List Opt)
    (_hu : uniqueValues options) (s : SelState)
    (hs : Reachable isMultiple options s) :
    (valuesOf s.selectedOptions).Nodup ∧
    (isMultiple = false → s.selectedOptions.length ≤ 1) := by
  obtain ⟨h1, _, h3⟩ := reachable_selected_invariant isMultiple options s hs
  exact ⟨h1, h3⟩

/-- Witness for C9 at the initial state in single-select mode. -/
theorem C9_selection_invariant_witness :
    (valuesOf initState.selectedOptions).Nodup ∧
    (false = false → initState.selectedOptions.length ≤ 1) :=
  C9_selection_invariant false [⟨1, "A"⟩]
    (by show (valuesOf [⟨1, "A"⟩]).Nodup; decide) initState Reachable.init

theorem toggle_twice_not_selected (sel : List Opt) (o : Opt)
    (h : o.value ∉ valuesOf sel) :
    (handleOptionClick true (handleOptionClick true sel o).selected o).selected
      = sel := by
  have hany : (sel.any fun s => s.value == o.value) = false :=
    (any_value_eq_false_iff sel o.value).mpr h
  have h1 : (handleOptionClick true sel o).selected = sel ++ [o] := by
    rw [toggle_selected_eq, hany]
    simp
  rw [h1, toggle_selected_eq]
  have hany2 : ((sel ++ [o]).any fun s => s.value == o.value) = true := by
    rw [any_value_eq_true_iff]
    show o.value ∈ (sel ++ [o]).map Opt.value
    rw [List.map_append]
    simp
  rw [hany2]
  simp only [if_true]
  rw [List.filter_append, filter_value_eq_self sel o.value h]
  simp

theorem perm_cons_filter_of_mem (sel : List Opt) (o : Opt)
    (hnodup : (valuesOf sel).Nodup)
    (hcanon : ∀ x ∈ sel, x.value = o.value → x = o)
    (hmem : o.value ∈ valuesOf sel) :
    sel.Perm (o :: (sel.filter fun s => !(s.value == o.value))) := by
  induction sel with
  | nil => simp [valuesOf] at hmem
  | cons a t ih =>
    have hsplit : a.value ∉ valuesOf t ∧ (valuesOf t).Nodup := by
      have := List.nodup_cons.mp (show (a.value :: valuesOf t).Nodup from hnodup)
      exact this
    by_cases hav : a.value = o.value
    · have hao : a = o := hcanon a (by simp) hav
      subst hao
      rw [List.filter_cons]
      simp only [beq_self_eq_true, Bool.not_true, Bool.false_eq_true, if_false]
      rw [filter_value_eq_self t a.value hsplit.1]
    · have hmem_t : o.value ∈ valuesOf t := by
        rcases List.mem_cons.mp (show o.value ∈ a.value :: valuesOf t from hmem)
          with h | h
        · exact absurd h.symm hav
        · exact h
      have ihp := ih hsplit.2
        (fun x hx hxv => hcanon x (List.mem_cons_of_mem a hx) hxv) hmem_t
      rw [List.filter_cons]
      have hkeep : (!(a.value == o.value)) = true := by
        rw [Bool.not_eq_true', beq_eq_false_iff_ne]
        exact hav
      rw [if_pos hkeep]
      exact (ihp.cons a).trans (List.Perm.swap o a _)

theorem toggle_twice_perm (sel : List Opt) (o : Opt)
    (hnodup : (valuesOf sel).Nodup)
    (hcanon : ∀ x ∈ sel, x.value = o.value → x = o) :
    ((handleOptionClick true (handleOptionClick true sel o).selected o).selected).Perm
      sel := by
  by_cases hmem : o.value ∈ valuesOf sel
  · have hany : (sel.any fun s => s.value == o.value) = true :=
      (any_value_eq_true_iff sel o.value).mpr hmem
    have h1 : (handleOptionClick true sel o).selected =
        sel.filter fun s => !(s.value == o.value) := by
      rw [toggle_selected_eq, hany]
      simp
    rw [h1, toggle_selected_eq]
    have hnone : o.value ∉ valuesOf (sel.filter fun s => !(s.value == o.value)) := by
      show o.value ∉ (sel.filter fun s => !(s.value == o.value)).map Opt.value
      rw [List.mem_map]
      rintro ⟨x, hx, hxv⟩
      have hpx := List.of_mem_filter hx
      rw [hxv] at hpx
      simp at hpx
    have hany2 : ((sel.filter fun s => !(s.value == o.value)).any
        fun s => s.value == o.value) = false :=
      (any_value_eq_false_iff _ _).mpr hnone
    rw [hany2]
    simp only [Bool.false_eq_true, if_false]
    refine (List.perm_append_singleton o _).trans ?_
    exact (perm_cons_filter_of_mem sel o hnodup hcanon hmem).symm
  · rw [toggle_twice_not_selected sel o hmem]

/-- Claim C2 is false as stated: with options `[A, B]` (`A = {value:1}`,
`B = {value:2}`), the state with selection `[A, B]` is reachable in
multi-select mode (open the panel, click `A`, click `B`); toggling `A` twice
from there yields `[B, A]` — the same contents but not the original order,
because the second toggle re-appends `A` at the end. -/
theorem C2_counterexample : ¬claimC2 := by
  intro h
  have r0 : Reachable true [⟨1, "A"⟩, ⟨2, "B"⟩] initState := Reachable.init
  have e1 : (step true [⟨1, "A"⟩, ⟨2, "B"⟩] initState Event.triggerClick).state =
      ⟨true, "", [], none⟩ := by decide
  have r1 : Reachable true [⟨1, "A"⟩, ⟨2, "B"⟩] ⟨true, "", [], none⟩ :=
    e1 ▸ Reachable.step _ _ r0
  have e2 : (step true [⟨1, "A"⟩, ⟨2, "B"⟩] ⟨true, "", [], none⟩
      (Event.optionClick ⟨1, "A"⟩)).state = ⟨true, "", [⟨1, "A"⟩], none⟩ := by
    decide
  have r2 : Reachable true [⟨1, "A"⟩, ⟨2, "B"⟩] ⟨true, "", [⟨1, "A"⟩], none⟩ :=
    e2 ▸ Reachable.step _ _ r1
  have e3 : (step true [⟨1, "A"⟩, ⟨2, "B"⟩] ⟨true, "", [⟨1, "A"⟩], none⟩
      (Event.optionClick ⟨2, "B"⟩)).state =
      ⟨true, "", [⟨1, "A"⟩, ⟨2, "B"⟩], none⟩ := by
    decide
  have r3 : Reachable true [⟨1, "A"⟩, ⟨2, "B"⟩]
      ⟨true, "", [⟨1, "A"⟩, ⟨2, "B"⟩], none⟩ :=
    e3 ▸ Reachable.step _ _ r2
  have hc := h [⟨1, "A"⟩, ⟨2, "B"⟩]
    (by show (valuesOf [⟨1, "A"⟩, ⟨2, "B"⟩]).Nodup; decide) _ r3 ⟨1, "A"⟩
    (by decide)
  exact absurd hc (by decide)

/-- Claim C2 (amended): in multi-select mode, for every options list with
unique values, every reachable state, and every option of the list, toggling
that option twice returns the Selection State to its original contents (the
result is a permutation of the original selection); the original order is
also restored whenever the option was not selected beforehand — but toggling
an already-selected option moves it to the end of the selection. -/
theorem C2_amended_double_toggle (options : List Opt)
    (hu : uniqueValues options) (s : SelState)
    (hs : Reachable true options s) (o : Opt) (ho : o ∈ options) :
    ((handleOptionClick true
        (handleOptionClick true s.selectedOptions o).selected o).selected).Perm
      s.selectedOptions ∧
    (o.value ∉ valuesOf s.selectedOptions →
      (handleOptionClick true
          (handleOptionClick true s.selectedOptions o).selected o).selected =
        s.selectedOptions) := by
  obtain ⟨h1, h2, _⟩ := reachable_selected_invariant true options s hs
  have hcanon : ∀ x ∈ s.selectedOptions, x.value = o.value → x = o :=
    fun x hx hxv => List.inj_on_of_nodup_map hu (h2 x hx) ho hxv
  exact ⟨toggle_twice_perm _ _ h1 hcanon,
    fun hnm => toggle_twice_not_selected _ _ hnm⟩

/-- Witness for C2 (amended) at the initial (empty) selection with options
`[{value:1,label:"A"}]`. -/
theorem C2_amended_double_toggle_witness :
    ((handleOptionClick true
        (handleOptionClick true initState.selectedOptions ⟨1, "A"⟩).selected
        ⟨1, "A"⟩).selected).Perm initState.selectedOptions ∧
    ((⟨1, "A"⟩ : Opt).value ∉ valuesOf initState.selectedOptions →
      (handleOptionClick true
          (handleOptionClick true initState.selectedOptions ⟨1, "A"⟩).selected
          ⟨1, "A"⟩).selected = initState.selectedOptions) :=
  C2_amended_double_toggle [⟨1, "A"⟩]
    (by show (valuesOf [⟨1, "A"⟩]).Nodup; decide) initState Reachable.init
    ⟨1, "A"⟩ (by decide)
